import Mathlib

/-!
# Verification of the firefly blockchain connector abstraction

Shallow embedding of `internal/blockchain/plugin.go` (connector contract,
event-sink contract, transaction-state enumeration, broadcast-batch data
model) and of the App2App socket client, together with spec-modelled
definitions for the engine-side behaviour (transaction state tracker,
batch dedup, submission idempotency, sequencing & failover coordinator)
whose implementation is not part of the sources here.
-/

namespace Firefly

/-- A single byte. -/
abbrev Byte := Fin 256

/-- Modelled from the spec: the `Bytes32` type referenced by
`BroadcastBatch.BatchID` in plugin.go is not among the sources; the spec
describes it as "a 32-byte value".  We model it as a raw byte string so
that malformed (e.g. zero-length) values remain representable, with
validity meaning length 32. -/
abbrev Bytes32 := List Byte

/-- Modelled from the spec: the `HexUUID` type referenced by
`BroadcastBatch.BatchPaylodRef` is not among the sources; the comment in
plugin.go calls it "a 32 byte fixed length binary value". -/
abbrev HexUUID := List Byte

/-- The `TransactionState` type from plugin.go: "the only architecturally
significant thing that Firefly tracks on blockchain transactions". -/
inductive TransactionState where
  | Submitted
  | Confirmed
  | Failed
deriving DecidableEq, Repr

/-- The wire labels of the three `TransactionState` constants declared in
plugin.go (`"submitted"`, `"confirmed"`, `"error"`). -/
def TransactionState.wire : TransactionState → String
  | .Submitted => "submitted"
  | .Confirmed => "confirmed"
  | .Failed => "error"

/-- A state is terminal when it is `Confirmed` or `Failed`. -/
def TransactionState.isTerminal : TransactionState → Bool
  | .Submitted => false
  | .Confirmed => true
  | .Failed => true

/-- The `Capabilities` struct from plugin.go: the supported featureset of the
blockchain interface implemented by the plugin. -/
structure Capabilities where
  GlobalSequencer : Bool
deriving DecidableEq, Repr

/-- The `BroadcastBatch` struct from plugin.go: the set of data pinned to the
blockchain for a batch of broadcasts.  The field spelling
`BatchPaylodRef` is the source's own. -/
structure BroadcastBatch where
  Timestamp : Nat
  BatchPaylodRef : HexUUID
  BatchID : Bytes32
deriving DecidableEq, Repr

/-- Well-formedness of a batch: `Timestamp` fits in an unsigned 64-bit
value, `BatchPaylodRef` is a 32-byte fixed-length value, and `BatchID`
is a 32-byte value. -/
def BroadcastBatch.wellFormed (b : BroadcastBatch) : Bool :=
  decide (b.Timestamp < 2 ^ 64) && b.BatchPaylodRef.length == 32 &&
    b.BatchID.length == 32

/-! ## Engine-side event sink (spec-modelled)

The Go sources declare only the `Events` interface; the engine
implementation behind it is not among the sources, so the behaviour is
modelled from the spec (§4.2, §4.3, §7). -/

/-- Opaque protocol-specific detail attached to callbacks, never parsed
by the core. -/
abbrev AdditionalInfo := List (String × String)

/-- Modelled from the spec: the engine state behind the `Events`
interface, whose implementation is not among the sources.  It holds the
per-tracking-ID transaction state machine (§4.3), the processed-`BatchID`
dedup record and the application-visible effect log (§4.2), the
protocol-violation log (§7, `ProtocolViolation` is "logged and
discarded"), and the read-only `Capabilities` returned by `Init`. -/
structure EngineState where
  txStates : List (String × TransactionState)
  processedBatchIDs : List Bytes32
  effects : List BroadcastBatch
  violations : List String
  caps : Capabilities
deriving DecidableEq, Repr

/-- Look up the tracked state of a transaction tracking ID. -/
def lookupTx (e : EngineState) (txTrackingID : String) :
    Option TransactionState :=
  (e.txStates.find? (fun p => p.1 == txTrackingID)).map (fun p => p.2)

/-- Overwrite the tracked state of an existing tracking ID. -/
def setTx (m : List (String × TransactionState)) (txTrackingID : String)
    (st : TransactionState) : List (String × TransactionState) :=
  m.map (fun p => if p.1 == txTrackingID then (p.1, st) else p)

/-- Modelled from the spec: the engine-side registration performed at the
moment `SubmitBroadcastBatch` returns a tracking ID — the transaction
state object is created in state `Submitted` (§4.3). -/
def recordSubmission (e : EngineState) (txTrackingID : String) :
    EngineState :=
  { e with txStates := e.txStates ++ [(txTrackingID, .Submitted)] }

/-- Modelled from the spec: the engine behaviour behind
`Events.TransactionUpdate` (plugin.go declares only the interface).
The only legal transitions are `Submitted → Confirmed` and
`Submitted → Failed` (§4.3); any other call — in particular a second
terminal call for the same ID — is a protocol violation, logged and
discarded rather than applied (§4.2, §7). -/
def transactionUpdate (e : EngineState) (txTrackingID : String)
    (txState : TransactionState) (errorMessage : String)
    (additionalInfo : AdditionalInfo) : EngineState :=
  match lookupTx e txTrackingID with
  | some .Submitted =>
      if txState.isTerminal then
        { e with txStates := setTx e.txStates txTrackingID txState }
      else
        { e with violations := e.violations ++ [txTrackingID] }
  | _ =>
      { e with violations := e.violations ++ [txTrackingID] }

/-- Modelled from the spec: the engine behaviour behind
`Events.SequencedBroadcastBatch` (plugin.go declares only the
interface).  Delivery is at-least-once; the engine deduplicates by
`BatchID`, so reprocessing an already-processed `BatchID` is a no-op
(§4.2). -/
def sequencedBroadcastBatch (e : EngineState) (batch : BroadcastBatch)
    (additionalInfo : AdditionalInfo) : EngineState :=
  if batch.BatchID ∈ e.processedBatchIDs then e
  else
    { e with
        processedBatchIDs := e.processedBatchIDs ++ [batch.BatchID]
        effects := e.effects ++ [batch] }

/-- Number of application-visible effects recorded for a given
`BatchID`. -/
def effectCount (e : EngineState) (id : Bytes32) : Nat :=
  (e.effects.filter (fun b => b.BatchID == id)).length

/-! ## Connector side (spec-modelled)

`Plugin.SubmitBroadcastBatch` is only declared in plugin.go; no connector
implementation is among the sources, so submission is modelled from the
spec (§4.1, §7). -/

/-- The submission error taxonomy of §7 relevant to
`SubmitBroadcastBatch`. -/
inductive SubmitError where
  | SubmissionRejected
  | ConnectorUnavailable
deriving DecidableEq, Repr

/-- Modelled from the spec: the connector-side state — the ordered list
of batches pinned on chain, and a counter for issuing tracking IDs. -/
structure ConnectorState where
  pinned : List BroadcastBatch
  nextID : Nat
deriving DecidableEq, Repr

/-- A batch is malformed when it is not well formed (e.g. a zero-length
`BatchID`, §4.1). -/
def malformedBatch (b : BroadcastBatch) : Bool := !b.wellFormed

/-- Tracking IDs issued by the connector. -/
def trackingID (n : Nat) : String := "tx-" ++ toString n

/-- Modelled from the spec: `Plugin.SubmitBroadcastBatch` (declared in
plugin.go, no implementation among the sources).  Malformed input fails
with `SubmissionRejected`; an unreachable network fails with
`ConnectorUnavailable` and leaves the chain untouched; otherwise the
batch is pinned, idempotently by its deterministic `BatchID` — retried
submission of an already-accepted batch must not create a duplicate
on-chain pin (§4.1). -/
def submitBroadcastBatch (reachable : Bool) (identity : String)
    (broadcast : BroadcastBatch) (c : ConnectorState) :
    Except SubmitError String × ConnectorState :=
  if malformedBatch broadcast then (.error .SubmissionRejected, c)
  else if !reachable then (.error .ConnectorUnavailable, c)
  else if broadcast.BatchID ∈ c.pinned.map (fun p => p.BatchID) then
    (.ok (trackingID c.nextID), { c with nextID := c.nextID + 1 })
  else
    (.ok (trackingID c.nextID),
      { pinned := c.pinned ++ [broadcast], nextID := c.nextID + 1 })

/-- Number of on-chain pins carrying a given `BatchID`. -/
def pinCount (c : ConnectorState) (id : Bytes32) : Nat :=
  (c.pinned.filter (fun p => p.BatchID == id)).length

/-- Modelled from the spec: engine initialization against a connector's
`Capabilities` — an engine that requires global ordering must fail fast
when `GlobalSequencer` is false rather than proceed silently (§3, §8
scenario 6). -/
def engineInit (requireGlobalOrder : Bool) (caps : Capabilities) :
    Except String Capabilities :=
  if requireGlobalOrder && !caps.GlobalSequencer then
    .error "global sequencer required"
  else .ok caps

/-! ## Sequencing & Failover Coordinator (spec-modelled)

The doc comment on the `Events` interface in plugin.go states the
requirement (single active instance, fail-over, replay of unconfirmed
messages in correct sequence); the coordinator itself is not among the
sources, so it is modelled from the spec (§4.4). -/

/-- Modelled from the spec: the Sequencing & Failover Coordinator state
(§4.4).  `events` is the blockchain-established stream, identified by
strictly increasing sequence markers; `cursor` is the durable cursor
(the last acknowledged sequence marker, `none` before any ack),
surviving disconnects, fail-over and producer restarts; `applied` is the
stream durably applied above the dedup layer, in apply order.  At any
instant the producer delivers to exactly one active connection; a
`Segment` below describes one active-connection epoch. -/
structure Coordinator where
  events : List Nat
  cursor : Option Nat
  applied : List Nat
deriving DecidableEq, Repr

/-- Does a sequence marker exceed the durable cursor? -/
def afterCursor : Option Nat → Nat → Bool
  | none, _ => true
  | some a, m => a < m

/-- Modelled from the spec: on every new active-connection
establishment, the producer re-delivers exactly the events whose
sequence marker exceeds the last acknowledged marker (§4.4 step 3), in
blockchain order. -/
def replayList (c : Coordinator) : List Nat :=
  c.events.filter (afterCursor c.cursor)

/-- Modelled from the spec: the engine-side dedup layer applied to a
redelivered stream — an already-applied marker is a no-op, a new one is
appended in arrival order (§4.4 step 4, §4.2). -/
def dedupApply (applied : List Nat) : List Nat → List Nat
  | [] => applied
  | m :: ms =>
      dedupApply (if m ∈ applied then applied else applied ++ [m]) ms

/-- One active-connection epoch: the producer picks one connection as
the active delivery target (leader selection is the producer's
responsibility); `member` names the chosen cluster member, `delivered`
is how many replayed events reach it before the transport drops,
`appliedN` how many of those it durably applies (a prefix — it applies
in arrival order), and `acked` how many of the applied ones it
acknowledges (it acknowledges only after durably applying). -/
structure Segment where
  member : Nat
  delivered : Nat
  appliedN : Nat
  acked : Nat
deriving DecidableEq, Repr

/-- Modelled from the spec: one active-connection epoch of the
coordinator protocol (§4.4).  On connection establishment the producer
replays everything past the durable cursor; the consumer durably applies
a prefix of what arrives (through the dedup layer) and acknowledges a
prefix of what it applied; the acknowledgment advances the durable
cursor to the last acknowledged marker. -/
def runSegment (c : Coordinator) (g : Segment) : Coordinator :=
  let d := (replayList c).take g.delivered
  let ap := d.take g.appliedN
  let ak := ap.take g.acked
  { events := c.events
    cursor := match ak.getLast? with
      | none => c.cursor
      | some m => some m
    applied := dedupApply c.applied ap }

/-- Run a sequence of active-connection epochs (arbitrary disconnects,
reconnects and fail-overs to other members). -/
def runSegments (c : Coordinator) : List Segment → Coordinator
  | [] => c
  | g :: gs => runSegments (runSegment c g) gs

/-- The coordinator at subscription creation: nothing acknowledged,
nothing applied. -/
def initCoordinator (es : List Nat) : Coordinator :=
  { events := es, cursor := none, applied := [] }

/-- A final epoch in which the connection stays up long enough for the
consumer to apply and acknowledge every outstanding event. -/
def finalFlush (c : Coordinator) (member : Nat) : Coordinator :=
  runSegment c
    ⟨member, (replayList c).length, (replayList c).length,
      (replayList c).length⟩

/-! ## App2App socket client (from `clients/app2app.ts`)

The `data` handler of `establishSocketIOConnection`: it parses the
message content as JSON inside a try/catch and invokes every registered
listener with the parsed content; a parse failure is caught and only
logged. -/

/-- An App2App message as received on the socket: opaque headers and a
string content. -/
structure App2AppMessage where
  headers : String
  content : String
deriving DecidableEq, Repr

/-- The try-block of the `data` handler: `JSON.parse` the content (an
external call, embedded as a fallible `parse` function) and, on success,
invoke each registered listener in order with the headers and parsed
content.  The result records the listener invocations. -/
def dataHandlerBody {L C : Type} (parse : String → Except String C)
    (listeners : List L) (msg : App2AppMessage) :
    Except String (List (L × String × C)) :=
  match parse msg.content with
  | .error e => .error e
  | .ok content => .ok (listeners.map (fun l => (l, msg.headers, content)))

/-- The full `data` handler: the try/catch around `dataHandlerBody` — a
thrown parse error is caught and only logged, so the handler always
returns normally to the socket layer.  Returns the listener invocations
made and the (unchanged) listener list. -/
def onDataMessage {L C : Type} (parse : String → Except String C)
    (listeners : List L) (msg : App2AppMessage) :
    List (L × String × C) × List L :=
  match dataHandlerBody parse listeners msg with
  | .error _ => ([], listeners)
  | .ok calls => (calls, listeners)

/-! ## Theorems -/

/-- C8: `TransactionState` is an enumeration with exactly the three
values `Submitted`, `Confirmed` and `Failed`; on the wire they are
labelled `"submitted"`, `"confirmed"` and `"error"` respectively, and
the three wire labels are pairwise distinct. -/
theorem transactionState_enumeration :
    (∀ s : TransactionState,
        s = .Submitted ∨ s = .Confirmed ∨ s = .Failed)
    ∧ TransactionState.wire .Submitted = "submitted"
    ∧ TransactionState.wire .Confirmed = "confirmed"
    ∧ TransactionState.wire .Failed = "error"
    ∧ (TransactionState.wire .Submitted ==
        TransactionState.wire .Confirmed) = false
    ∧ (TransactionState.wire .Submitted ==
        TransactionState.wire .Failed) = false
    ∧ (TransactionState.wire .Confirmed ==
        TransactionState.wire .Failed) = false := by
  refine ⟨fun s => ?_, rfl, rfl, rfl, by decide, by decide, by decide⟩
  cases s
  · exact Or.inl rfl
  · exact Or.inr (Or.inl rfl)
  · exact Or.inr (Or.inr rfl)

/-- C10: in the App2App client, an incoming socket `data` message whose
content is not valid JSON (the embedded `JSON.parse` fails) invokes no
registered listener, and the handler returns normally to the socket
layer with the registered listener list unchanged. -/
theorem onData_invalid_json {L C : Type}
    (parse : String → Except String C) (listeners : List L)
    (msg : App2AppMessage) (e : String)
    (hparse : parse msg.content = .error e) :
    onDataMessage parse listeners msg = ([], listeners) := by
  unfold onDataMessage dataHandlerBody
  rw [hparse]

/-- Witness for C10 at a concrete non-JSON message. -/
theorem onData_invalid_json_witness :
    (fun _ : String => (Except.error "SyntaxError" : Except String Nat))
        "not json" = .error "SyntaxError"
    ∧ onDataMessage
        (fun _ : String => (Except.error "SyntaxError" : Except String Nat))
        [0, 1] ⟨"hdr", "not json"⟩ = ([], [0, 1]) :=
  ⟨rfl, onData_invalid_json _ [0, 1] ⟨"hdr", "not json"⟩ "SyntaxError" rfl⟩

/-- C4: delivering the same `BroadcastBatch` to
`SequencedBroadcastBatch` twice results in exactly one
application-visible effect: the second delivery is a no-op (the engine
deduplicates by `BatchID`), and exactly one effect for that `BatchID` is
recorded. -/
theorem sequencedBatch_dedup (e : EngineState) (b : BroadcastBatch)
    (ai ai' : AdditionalInfo)
    (hfresh : b.BatchID ∉ e.processedBatchIDs)
    (heff : effectCount e b.BatchID = 0) :
    sequencedBroadcastBatch (sequencedBroadcastBatch e b ai) b ai'
        = sequencedBroadcastBatch e b ai
    ∧ effectCount
        (sequencedBroadcastBatch (sequencedBroadcastBatch e b ai) b ai')
        b.BatchID = 1 := by
  have h1 : sequencedBroadcastBatch e b ai =
      { e with
          processedBatchIDs := e.processedBatchIDs ++ [b.BatchID]
          effects := e.effects ++ [b] } := by
    unfold sequencedBroadcastBatch
    rw [if_neg hfresh]
  have hmem : b.BatchID ∈ e.processedBatchIDs ++ [b.BatchID] := by simp
  have h2 : sequencedBroadcastBatch (sequencedBroadcastBatch e b ai) b ai'
      = sequencedBroadcastBatch e b ai := by
    rw [h1]
    unfold sequencedBroadcastBatch
    rw [if_pos hmem]
  refine ⟨h2, ?_⟩
  rw [h2, h1]
  unfold effectCount at heff ⊢
  simp only [List.filter_append, List.length_append]
  rw [heff]
  simp

/-- C7: a connector advertising `Capabilities` with `GlobalSequencer`
false makes an engine that requires global ordering fail initialization
rather than proceed silently; and the `Capabilities` value is read-only
after `Init` — no engine operation modifies it. -/
theorem capabilities_failFast (caps : Capabilities) (e : EngineState)
    (id : String) (st : TransactionState) (em : String)
    (ai ai' : AdditionalInfo) (b : BroadcastBatch)
    (hcaps : caps.GlobalSequencer = false) :
    engineInit true caps = .error "global sequencer required"
    ∧ (transactionUpdate e id st em ai).caps = e.caps
    ∧ (sequencedBroadcastBatch e b ai').caps = e.caps
    ∧ (recordSubmission e id).caps = e.caps := by
  refine ⟨by simp [engineInit, hcaps], ?_, ?_, rfl⟩
  · unfold transactionUpdate
    split
    · split <;> rfl
    · rfl
  · unfold sequencedBroadcastBatch
    split <;> rfl

/-- Witness for C7 at a concrete non-sequencing connector. -/
theorem capabilities_failFast_witness :
    engineInit true ⟨false⟩ = .error "global sequencer required"
    ∧ (transactionUpdate ⟨[], [], [], [], ⟨false⟩⟩ "tx-1" .Confirmed ""
        []).caps = ⟨false⟩ :=
  ⟨(capabilities_failFast ⟨false⟩ ⟨[], [], [], [], ⟨false⟩⟩ "tx-1"
      .Confirmed "" [] [] ⟨0, [], []⟩ rfl).1,
   (capabilities_failFast ⟨false⟩ ⟨[], [], [], [], ⟨false⟩⟩ "tx-1"
      .Confirmed "" [] [] ⟨0, [], []⟩ rfl).2.1⟩

/-- C6: `SubmitBroadcastBatch` fails with `SubmissionRejected` exactly
when the input batch is malformed (e.g. a zero-length `BatchID`) — for
any network condition and any connector state, so the condition is
non-retryable; with well-formed input it fails with
`ConnectorUnavailable` (leaving the connector untouched) exactly when
the network is unreachable, and succeeds when it is reachable, so the
latter condition is retryable with identical input.  Both errors are
the synchronous return value of the call. -/
theorem submit_error_taxonomy (r : Bool) (identity : String)
    (b : BroadcastBatch) (c : ConnectorState) :
    ((submitBroadcastBatch r identity b c).1
        = .error .SubmissionRejected ↔ malformedBatch b = true)
    ∧ (malformedBatch b = false → r = false →
        submitBroadcastBatch r identity b c
          = (.error .ConnectorUnavailable, c))
    ∧ (malformedBatch b = false → r = true →
        ∃ t, (submitBroadcastBatch r identity b c).1 = .ok t) := by
  refine ⟨?_, ?_, ?_⟩
  · cases hm : malformedBatch b
    · simp only [submitBroadcastBatch, hm, Bool.false_eq_true, if_false]
      constructor
      · intro h
        exfalso
        revert h
        split
        · intro h
          cases h
        · split
          · intro h
            cases h
          · intro h
            cases h
      · intro h
        cases h
    · simp [submitBroadcastBatch, hm]
  · intro hm hr
    subst hr
    simp [submitBroadcastBatch, hm]
  · intro hm hr
    subst hr
    simp only [submitBroadcastBatch, hm, Bool.false_eq_true, if_false,
      Bool.not_true]
    split
    · exact ⟨_, rfl⟩
    · exact ⟨_, rfl⟩

/-- Witness for C6: a malformed batch (zero-length `BatchID`) is
rejected, and a well-formed one hits `ConnectorUnavailable` when the
network is down and succeeds when it is up. -/
theorem submit_error_taxonomy_witness :
    ((submitBroadcastBatch true "0xSender"
        ⟨1000, List.replicate 32 0, []⟩ ⟨[], 0⟩).1
      = .error .SubmissionRejected)
    ∧ (submitBroadcastBatch false "0xSender"
        ⟨1000, List.replicate 32 0, List.replicate 32 1⟩ ⟨[], 0⟩
      = (.error .ConnectorUnavailable, ⟨[], 0⟩))
    ∧ ∃ t, (submitBroadcastBatch true "0xSender"
        ⟨1000, List.replicate 32 0, List.replicate 32 1⟩ ⟨[], 0⟩).1
      = .ok t :=
  ⟨(submit_error_taxonomy true "0xSender"
      ⟨1000, List.replicate 32 0, []⟩ ⟨[], 0⟩).1.mpr (by decide),
   (submit_error_taxonomy false "0xSender"
      ⟨1000, List.replicate 32 0, List.replicate 32 1⟩ ⟨[], 0⟩).2.1
      (by decide) rfl,
   (submit_error_taxonomy true "0xSender"
      ⟨1000, List.replicate 32 0, List.replicate 32 1⟩ ⟨[], 0⟩).2.2
      (by decide) rfl⟩

/-- Helper: `setTx` relates to `find?` — looking up the updated ID finds
the entry rewritten to the new state. -/
theorem find?_setTx (m : List (String × TransactionState)) (id : String)
    (st : TransactionState) :
    (setTx m id st).find? (fun p => p.1 == id)
      = (m.find? (fun p => p.1 == id)).map (fun p => (p.1, st)) := by
  unfold setTx
  rw [List.find?_map]
  have hpf : ((fun p : String × TransactionState => p.1 == id) ∘
      (fun p => if (p.1 == id) = true then (p.1, st) else p))
      = fun p => p.1 == id := by
    funext q
    by_cases h : (q.1 == id) = true
    · simp [Function.comp, h]
    · simp [Function.comp, h]
  rw [hpf]
  cases hf : m.find? (fun p => p.1 == id) with
  | none => rfl
  | some pr =>
    have hpr := List.find?_some hf
    simp only at hpr
    have heq : pr.1 = id := by simpa using hpr
    simp [heq]

/-- Helper: looking up an ID after `setTx` when the ID was tracked. -/
theorem lookupTx_set (e : EngineState) (id : String)
    (st s0 : TransactionState) (h : lookupTx e id = some s0) :
    lookupTx { e with txStates := setTx e.txStates id st } id
      = some st := by
  unfold lookupTx at h ⊢
  rw [find?_setTx]
  cases hf : e.txStates.find? (fun p => p.1 == id) with
  | none => rw [hf] at h; cases h
  | some pr => simp

/-- Helper: a freshly registered tracking ID is in state `Submitted`. -/
theorem lookupTx_record (e : EngineState) (id : String)
    (h : lookupTx e id = none) :
    lookupTx (recordSubmission e id) id = some .Submitted := by
  unfold lookupTx at h ⊢
  unfold recordSubmission
  have hf : e.txStates.find? (fun p => p.1 == id) = none := by
    cases hf : e.txStates.find? (fun p => p.1 == id) with
    | none => rfl
    | some pr => rw [hf] at h; cases h
  dsimp only
  rw [List.find?_append, hf]
  simp [List.find?]

/-- C2: the per-tracking-ID transaction state machine — the state is
created as `Submitted` at submission time, `Submitted → Confirmed` and
`Submitted → Failed` (both terminal) are the only transitions actually
applied and only `TransactionUpdate` performs them (a sequenced-batch
delivery never touches the tracker); an update against a terminal state
is logged and discarded, leaving the tracker unchanged. -/
theorem txTracker_stateMachine (e : EngineState) (id : String)
    (st st' : TransactionState) (em em' : String)
    (ai ai' ai'' : AdditionalInfo) (b : BroadcastBatch) :
    (lookupTx e id = none →
        lookupTx (recordSubmission e id) id = some .Submitted)
    ∧ (lookupTx e id = some .Submitted → st.isTerminal = true →
        lookupTx (transactionUpdate e id st em ai) id = some st)
    ∧ (lookupTx e id = some st → st.isTerminal = true →
        transactionUpdate e id st' em' ai'
          = { e with violations := e.violations ++ [id] })
    ∧ (sequencedBroadcastBatch e b ai'').txStates = e.txStates := by
  refine ⟨lookupTx_record e id, ?_, ?_, ?_⟩
  · intro h hterm
    unfold transactionUpdate
    rw [h]
    dsimp only
    rw [if_pos hterm]
    exact lookupTx_set e id st .Submitted h
  · intro h hterm
    unfold transactionUpdate
    rw [h]
    cases st with
    | Submitted => simp [TransactionState.isTerminal] at hterm
    | Confirmed => rfl
    | Failed => rfl
  · unfold sequencedBroadcastBatch
    split <;> rfl

/-- Witness for C2 on a concrete tracker run. -/
theorem txTracker_stateMachine_witness :
    lookupTx (recordSubmission ⟨[], [], [], [], ⟨true⟩⟩ "tx-1") "tx-1"
        = some .Submitted
    ∧ lookupTx (transactionUpdate
        ⟨[("tx-1", .Submitted)], [], [], [], ⟨true⟩⟩
        "tx-1" .Confirmed "" []) "tx-1" = some .Confirmed
    ∧ transactionUpdate ⟨[("tx-1", .Confirmed)], [], [], [], ⟨true⟩⟩
        "tx-1" .Failed "nope" []
        = ⟨[("tx-1", .Confirmed)], [], [], ["tx-1"], ⟨true⟩⟩ :=
  ⟨(txTracker_stateMachine ⟨[], [], [], [], ⟨true⟩⟩ "tx-1" .Confirmed
      .Failed "" "nope" [] [] [] ⟨0, [], []⟩).1 (by decide),
   (txTracker_stateMachine ⟨[("tx-1", .Submitted)], [], [], [], ⟨true⟩⟩
      "tx-1" .Confirmed .Failed "" "nope" [] [] []
      ⟨0, [], []⟩).2.1 (by decide) (by decide),
   (txTracker_stateMachine ⟨[("tx-1", .Confirmed)], [], [], [], ⟨true⟩⟩
      "tx-1" .Confirmed .Failed "" "nope" [] [] []
      ⟨0, [], []⟩).2.2.1 (by decide) (by decide)⟩

/-- C3: at most one terminal `TransactionUpdate` is accepted per
tracking ID — after a first terminal update, a second call with any
terminal state (even a different one) only appends to the violation log
and is not applied, so the durably recorded state stays the first
terminal state. -/
theorem terminal_update_once (e : EngineState) (id : String)
    (t1 t2 : TransactionState) (em1 em2 : String)
    (ai1 ai2 : AdditionalInfo)
    (h : lookupTx e id = some .Submitted)
    (h1 : t1.isTerminal = true) (h2 : t2.isTerminal = true) :
    lookupTx (transactionUpdate e id t1 em1 ai1) id = some t1
    ∧ transactionUpdate (transactionUpdate e id t1 em1 ai1) id t2 em2 ai2
        = { transactionUpdate e id t1 em1 ai1 with
            violations :=
              (transactionUpdate e id t1 em1 ai1).violations ++ [id] }
    ∧ lookupTx (transactionUpdate (transactionUpdate e id t1 em1 ai1)
        id t2 em2 ai2) id = some t1 := by
  have hA : lookupTx (transactionUpdate e id t1 em1 ai1) id = some t1 := by
    unfold transactionUpdate
    rw [h]
    dsimp only
    rw [if_pos h1]
    exact lookupTx_set e id t1 .Submitted h
  have hB : ∀ e' : EngineState, lookupTx e' id = some t1 →
      transactionUpdate e' id t2 em2 ai2
        = { e' with violations := e'.violations ++ [id] } := by
    intro e' hA'
    unfold transactionUpdate
    rw [hA']
    cases t1 with
    | Submitted => simp [TransactionState.isTerminal] at h1
    | Confirmed => rfl
    | Failed => rfl
  refine ⟨hA, hB _ hA, ?_⟩
  rw [hB _ hA]
  exact hA

/-- Witness for C3: a second terminal update (`Failed` after
`Confirmed`) is discarded. -/
theorem terminal_update_once_witness :
    lookupTx (transactionUpdate
        ⟨[("tx-1", .Submitted)], [], [], [], ⟨true⟩⟩
        "tx-1" .Confirmed "" []) "tx-1" = some .Confirmed
    ∧ lookupTx (transactionUpdate (transactionUpdate
        ⟨[("tx-1", .Submitted)], [], [], [], ⟨true⟩⟩
        "tx-1" .Confirmed "" []) "tx-1" .Failed "late" [])
        "tx-1" = some .Confirmed :=
  ⟨(terminal_update_once ⟨[("tx-1", .Submitted)], [], [], [], ⟨true⟩⟩
      "tx-1" .Confirmed .Failed "" "late" [] [] (by decide) (by decide)
      (by decide)).1,
   (terminal_update_once ⟨[("tx-1", .Submitted)], [], [], [], ⟨true⟩⟩
      "tx-1" .Confirmed .Failed "" "late" [] [] (by decide) (by decide)
      (by decide)).2.2⟩

/-- C9: a `BroadcastBatch` consists of exactly the three fields
`Timestamp`, `BatchPaylodRef` and `BatchID`; well-formedness is exactly
"`Timestamp` fits an unsigned 64-bit epoch, the payload reference is a
32-byte fixed-length identifier, the batch ID is a 32-byte value"; and
submission never mutates already-pinned batches (immutability once
submitted: the prior pin list is always a prefix of the new one). -/
theorem broadcastBatch_shape (b b' : BroadcastBatch) (r : Bool)
    (identity : String) (c : ConnectorState) :
    b = ⟨b.Timestamp, b.BatchPaylodRef, b.BatchID⟩
    ∧ (b.wellFormed = true ↔
        (b.Timestamp < 2 ^ 64 ∧ b.BatchPaylodRef.length = 32
          ∧ b.BatchID.length = 32))
    ∧ c.pinned <+: (submitBroadcastBatch r identity b' c).2.pinned := by
  refine ⟨rfl, ?_, ?_⟩
  · unfold BroadcastBatch.wellFormed
    simp [and_assoc]
  · unfold submitBroadcastBatch
    split
    · exact List.prefix_rfl
    · split
      · exact List.prefix_rfl
      · split
        · exact List.prefix_rfl
        · exact List.prefix_append _ _

/-- Witness for C9 at a concrete well-formed batch. -/
theorem broadcastBatch_shape_witness :
    (⟨1000, List.replicate 32 0, List.replicate 32 1⟩ :
        BroadcastBatch).wellFormed = true :=
  (broadcastBatch_shape ⟨1000, List.replicate 32 0, List.replicate 32 1⟩
      ⟨1000, List.replicate 32 0, List.replicate 32 1⟩ true "0xSender"
      ⟨[], 0⟩).2.1.mpr ⟨by decide, by decide, by decide⟩

/-- C5: resubmitting an identical batch after a `ConnectorUnavailable`
error does not produce two distinct on-chain pins — the failed attempt
leaves the chain untouched, the successful retry pins the batch, and a
further retried submission is deduplicated by the deterministic
`BatchID`, so the `BatchID` is observed exactly once downstream. -/
theorem submission_retry_safety (identity : String) (b : BroadcastBatch)
    (c : ConnectorState) (hm : malformedBatch b = false)
    (hfresh : b.BatchID ∉ c.pinned.map (fun p => p.BatchID)) :
    (submitBroadcastBatch false identity b c
        = (.error .ConnectorUnavailable, c))
    ∧ (∃ t, (submitBroadcastBatch true identity b
        (submitBroadcastBatch false identity b c).2).1 = .ok t)
    ∧ pinCount (submitBroadcastBatch true identity b
        (submitBroadcastBatch false identity b c).2).2 b.BatchID = 1
    ∧ pinCount (submitBroadcastBatch true identity b
        (submitBroadcastBatch true identity b
          (submitBroadcastBatch false identity b c).2).2).2 b.BatchID
        = 1 := by
  have h1 : submitBroadcastBatch false identity b c
      = (.error .ConnectorUnavailable, c) := by
    simp [submitBroadcastBatch, hm]
  have hcount0 : (c.pinned.filter
      (fun p => p.BatchID == b.BatchID)) = [] := by
    rw [List.filter_eq_nil_iff]
    intro p hp hpb
    exact hfresh (List.mem_map.mpr ⟨p, hp, (eq_of_beq hpb)⟩)
  have h2 : submitBroadcastBatch true identity b c
      = (.ok (trackingID c.nextID),
          ⟨c.pinned ++ [b], c.nextID + 1⟩) := by
    unfold submitBroadcastBatch
    rw [if_neg (by rw [hm]; exact Bool.false_ne_true)]
    simp only [Bool.not_true, Bool.false_eq_true, if_false]
    rw [if_neg hfresh]
  have hmem2 : b.BatchID ∈ (c.pinned ++ [b]).map (fun p => p.BatchID) := by
    simp
  have h3 : submitBroadcastBatch true identity b
      (⟨c.pinned ++ [b], c.nextID + 1⟩ : ConnectorState)
      = (.ok (trackingID (c.nextID + 1)),
          ⟨c.pinned ++ [b], c.nextID + 2⟩) := by
    unfold submitBroadcastBatch
    rw [if_neg (by rw [hm]; exact Bool.false_ne_true)]
    simp only [Bool.not_true, Bool.false_eq_true, if_false]
    rw [if_pos hmem2]
  have hpc : pinCount (⟨c.pinned ++ [b], c.nextID + 1⟩ : ConnectorState)
      b.BatchID = 1 := by
    unfold pinCount
    dsimp only
    rw [List.filter_append, hcount0]
    simp
  refine ⟨h1, ?_, ?_, ?_⟩
  · rw [h1, h2]
    exact ⟨_, rfl⟩
  · rw [h1, h2]
    exact hpc
  · rw [h1, h2, h3]
    unfold pinCount at hpc ⊢
    exact hpc

/-- Witness for C5 on a concrete fresh connector. -/
theorem submission_retry_safety_witness :
    pinCount (submitBroadcastBatch true "0xSender"
        ⟨1000, List.replicate 32 0, List.replicate 32 1⟩
        (submitBroadcastBatch true "0xSender"
          ⟨1000, List.replicate 32 0, List.replicate 32 1⟩
          (submitBroadcastBatch false "0xSender"
            ⟨1000, List.replicate 32 0, List.replicate 32 1⟩
            ⟨[], 0⟩).2).2).2
      (List.replicate 32 1) = 1 :=
  (submission_retry_safety "0xSender"
      ⟨1000, List.replicate 32 0, List.replicate 32 1⟩ ⟨[], 0⟩
      (by decide) (by decide)).2.2.2

/-- Witness for C4 delivering a concrete batch twice to a fresh
engine. -/
theorem sequencedBatch_dedup_witness :
    sequencedBroadcastBatch (sequencedBroadcastBatch
        ⟨[], [], [], [], ⟨true⟩⟩
        ⟨1000, List.replicate 32 0, List.replicate 32 1⟩ [])
        ⟨1000, List.replicate 32 0, List.replicate 32 1⟩ []
      = sequencedBroadcastBatch ⟨[], [], [], [], ⟨true⟩⟩
        ⟨1000, List.replicate 32 0, List.replicate 32 1⟩ []
    ∧ effectCount (sequencedBroadcastBatch (sequencedBroadcastBatch
        ⟨[], [], [], [], ⟨true⟩⟩
        ⟨1000, List.replicate 32 0, List.replicate 32 1⟩ [])
        ⟨1000, List.replicate 32 0, List.replicate 32 1⟩ [])
        (List.replicate 32 1) = 1 :=
  sequencedBatch_dedup ⟨[], [], [], [], ⟨true⟩⟩
    ⟨1000, List.replicate 32 0, List.replicate 32 1⟩ [] []
    (by decide) (by decide)

/-! ### Coordinator proofs (C1) -/

/-- The durable cursor after the first `a` events of `es` have been
acknowledged: the `a`-th marker (or `none` when `a = 0`). -/
def cursorAt (es : List Nat) (a : Nat) : Option Nat :=
  (es.take a).getLast?

/-- An indexed element lies in any longer prefix. -/
theorem getElem_mem_take {es : List Nat} {i p : Nat}
    (hi : i < es.length) (hip : i < p) : es[i] ∈ es.take p := by
  have hlen : i < (es.take p).length := by
    simp only [List.length_take]
    omega
  exact List.mem_iff_getElem.mpr ⟨i, hlen, by simp⟩

/-- In a strictly increasing list, an indexed element does not lie in a
shorter prefix. -/
theorem getElem_not_mem_take {es : List Nat}
    (hsorted : es.Pairwise (· < ·)) {i p : Nat}
    (hi : i < es.length) (hpi : p ≤ i) : es[i] ∉ es.take p := by
  intro hmem
  obtain ⟨j, hj, hval⟩ := List.mem_iff_getElem.mp hmem
  have hjp : j < p := by
    simp only [List.length_take] at hj
    omega
  have hjlen : j < es.length := by
    simp only [List.length_take] at hj
    omega
  rw [List.getElem_take] at hval
  have hlt : es[j] < es[i] :=
    List.pairwise_iff_getElem.mp hsorted j i hjlen hi (by omega)
  omega

/-- The replay computation: with the cursor at the `a`-th marker of a
strictly increasing stream, the events past the cursor are exactly the
suffix after position `a` — re-delivery is gap-free and
duplicate-free and preserves the blockchain order. -/
theorem replay_drop {es : List Nat} (hsorted : es.Pairwise (· < ·))
    {a : Nat} (ha : a ≤ es.length) :
    es.filter (afterCursor (cursorAt es a)) = es.drop a := by
  cases a with
  | zero =>
    have : afterCursor (cursorAt es 0) = fun _ => true := rfl
    rw [this]
    simp
  | succ k =>
    have hk : k < es.length := by omega
    have hcur : cursorAt es (k + 1) = some es[k] := by
      unfold cursorAt
      rw [List.getLast?_eq_getElem?]
      have hlen : (es.take (k + 1)).length = k + 1 := by
        simp only [List.length_take]
        omega
      rw [hlen]
      simp only [Nat.add_sub_cancel]
      rw [List.getElem?_take_of_lt (by omega), List.getElem?_eq_getElem hk]
    rw [hcur]
    have h1 : (es.take (k + 1)).filter (afterCursor (some es[k])) = [] := by
      rw [List.filter_eq_nil_iff]
      intro m hm
      obtain ⟨j, hj, hval⟩ := List.mem_iff_getElem.mp hm
      have hjk : j < k + 1 := by
        simp only [List.length_take] at hj
        omega
      have hjlen : j < es.length := by
        simp only [List.length_take] at hj
        omega
      rw [List.getElem_take] at hval
      have hle : es[j] ≤ es[k] := by
        rcases Nat.lt_or_ge j k with hjk' | hjk'
        · exact Nat.le_of_lt
            (List.pairwise_iff_getElem.mp hsorted j k hjlen hk hjk')
        · have : j = k := by omega
          subst this
          exact Nat.le_refl _
      subst hval
      simp only [afterCursor, decide_eq_true_eq]
      omega
    have h2 : (es.drop (k + 1)).filter (afterCursor (some es[k]))
        = es.drop (k + 1) := by
      rw [List.filter_eq_self]
      intro m hm
      obtain ⟨j, hj, hval⟩ := List.mem_iff_getElem.mp hm
      have hjlen : k + 1 + j < es.length := by
        simp only [List.length_drop] at hj
        omega
      rw [List.getElem_drop] at hval
      have hlt : es[k] < es[k + 1 + j] :=
        List.pairwise_iff_getElem.mp hsorted k (k + 1 + j) hk hjlen
          (by omega)
      subst hval
      simp only [afterCursor, decide_eq_true_eq]
      omega
    calc es.filter (afterCursor (some es[k]))
        = (es.take (k + 1)).filter (afterCursor (some es[k]))
            ++ (es.drop (k + 1)).filter (afterCursor (some es[k])) := by
          rw [← List.filter_append, List.take_append_drop]
      _ = es.drop (k + 1) := by rw [h1, h2, List.nil_append]

/-- The dedup layer applied to a redelivered window: starting from an
applied prefix of length `p ≥ a`, applying the window of `t` events
starting at position `a` extends the applied log to the prefix of
length `max p (a + min t (length - a))` — already-applied events are
no-ops and new ones land in order, so the log stays a prefix. -/
theorem dedupApply_take {es : List Nat} (hsorted : es.Pairwise (· < ·)) :
    ∀ (t a p : Nat), a ≤ p → p ≤ es.length →
      dedupApply (es.take p) ((es.drop a).take t)
        = es.take (max p (a + min t (es.length - a))) := by
  intro t
  induction t with
  | zero =>
    intro a p hap hpl
    have hmax : max p (a + min 0 (es.length - a)) = p := by omega
    rw [hmax]
    simp [dedupApply]
  | succ t ih =>
    intro a p hap hpl
    by_cases hal : a < es.length
    · rw [List.drop_eq_getElem_cons hal, List.take_succ_cons]
      simp only [dedupApply]
      by_cases hp : a < p
      · rw [if_pos (getElem_mem_take hal hp)]
        rw [ih (a + 1) p (by omega) hpl]
        have hmax : max p ((a + 1) + min t (es.length - (a + 1)))
            = max p (a + min (t + 1) (es.length - a)) := by omega
        rw [hmax]
      · have hap' : a = p := by omega
        subst hap'
        rw [if_neg (getElem_not_mem_take hsorted hal (Nat.le_refl a))]
        have htake : es.take (a + 1) = es.take a ++ [es[a]] := by
          rw [List.take_succ, List.getElem?_eq_getElem hal]
          rfl
        rw [← htake]
        rw [ih (a + 1) (a + 1) (Nat.le_refl _) (by omega)]
        have hmax : max (a + 1) ((a + 1) + min t (es.length - (a + 1)))
            = max a (a + min (t + 1) (es.length - a)) := by omega
        rw [hmax]
    · have hd : es.drop a = [] := List.drop_of_length_le (by omega)
      rw [hd]
      have hmax : max p (a + min (t + 1) (es.length - a)) = p := by omega
      rw [hmax]
      simp [dedupApply]

/-- The last marker of the redelivered window of `k` events starting at
position `a`. -/
theorem getLast?_drop_take (es : List Nat) (a k : Nat) :
    ((es.drop a).take k).getLast?
      = if min k (es.length - a) = 0 then none
        else es[a + min k (es.length - a) - 1]? := by
  rw [List.getLast?_eq_getElem?]
  have hlen : ((es.drop a).take k).length = min k (es.length - a) := by
    simp [List.length_take, List.length_drop]
  rw [hlen]
  by_cases h0 : min k (es.length - a) = 0
  · rw [if_pos h0]
    have hnil : (es.drop a).take k = [] :=
      List.length_eq_zero.mp (by rw [hlen]; exact h0)
    rw [hnil]
    rfl
  · rw [if_neg h0]
    rw [List.getElem?_take_of_lt (by omega), List.getElem?_drop]
    congr 1
    omega

/-- The durable cursor at position `a` as an indexed lookup. -/
theorem cursorAt_eq (es : List Nat) (a : Nat) (ha : a ≤ es.length) :
    cursorAt es a = if a = 0 then none else es[a - 1]? := by
  unfold cursorAt
  rw [List.getLast?_eq_getElem?]
  have hlen : (es.take a).length = a := by
    simp only [List.length_take]
    omega
  rw [hlen]
  by_cases h0 : a = 0
  · rw [if_pos h0]
    subst h0
    rfl
  · rw [if_neg h0]
    exact List.getElem?_take_of_lt (by omega)

/-- The coordinator invariant: the durable cursor sits at the `a`-th
marker, the applied log is exactly the first `p` events in order
(`a ≤ p`: everything acknowledged has been durably applied). -/
def coordInv (es : List Nat) (a p : Nat) (c : Coordinator) : Prop :=
  a ≤ p ∧ p ≤ es.length ∧ c.events = es ∧ c.cursor = cursorAt es a
    ∧ c.applied = es.take p

/-- One active-connection epoch preserves the coordinator invariant,
advancing the acknowledged count by what the consumer acked and the
applied prefix by what it durably applied. -/
theorem runSegment_inv {es : List Nat} (hsorted : es.Pairwise (· < ·))
    {a p : Nat} {c : Coordinator} (hc : coordInv es a p c) (g : Segment) :
    coordInv es
      (a + min (min g.acked (min g.appliedN g.delivered))
        (es.length - a))
      (max p (a + min (min g.appliedN g.delivered) (es.length - a)))
      (runSegment c g) := by
  obtain ⟨hap, hpl, hev, hcur, happ⟩ := hc
  have hrep : replayList c = es.drop a := by
    unfold replayList
    rw [hev, hcur]
    exact replay_drop hsorted (by omega)
  unfold runSegment
  dsimp only
  rw [hrep, happ, List.take_take g.appliedN g.delivered (es.drop a),
    List.take_take g.acked (min g.appliedN g.delivered) (es.drop a)]
  refine ⟨by omega, by omega, hev, ?_, ?_⟩
  · rw [getLast?_drop_take]
    by_cases h0 : min (min g.acked (min g.appliedN g.delivered))
        (es.length - a) = 0
    · rw [if_pos h0]
      show c.cursor = cursorAt es
        (a + min (min g.acked (min g.appliedN g.delivered))
          (es.length - a))
      rw [hcur, h0, Nat.add_zero]
    · rw [if_neg h0]
      have hidx : a + min (min g.acked (min g.appliedN g.delivered))
          (es.length - a) - 1 < es.length := by omega
      rw [List.getElem?_eq_getElem hidx]
      show some es[a + min (min g.acked (min g.appliedN g.delivered))
          (es.length - a) - 1]
        = cursorAt es
          (a + min (min g.acked (min g.appliedN g.delivered))
            (es.length - a))
      rw [cursorAt_eq es _ (by omega), if_neg (by omega),
        List.getElem?_eq_getElem (by omega :
          a + min (min g.acked (min g.appliedN g.delivered))
            (es.length - a) - 1 < es.length)]
  · rw [dedupApply_take hsorted (min g.appliedN g.delivered) a p hap hpl]

/-- Running any schedule of epochs from an invariant state lands in an
invariant state no earlier in the stream. -/
theorem runSegments_inv {es : List Nat} (hsorted : es.Pairwise (· < ·))
    (segs : List Segment) :
    ∀ {a p : Nat} {c : Coordinator}, coordInv es a p c →
      ∃ a' p', a ≤ a' ∧ p ≤ p'
        ∧ coordInv es a' p' (runSegments c segs) := by
  induction segs with
  | nil =>
    intro a p c hc
    exact ⟨a, p, Nat.le_refl _, Nat.le_refl _, hc⟩
  | cons g gs ih =>
    intro a p c hc
    have h1 := runSegment_inv hsorted hc g
    obtain ⟨a', p', ha', hp', hinv⟩ := ih h1
    exact ⟨a', p', by omega, by omega, hinv⟩

/-- After a final epoch with a stable transport, the applied log is the
whole stream. -/
theorem finalFlush_applied {es : List Nat}
    (hsorted : es.Pairwise (· < ·)) {a p : Nat} {c : Coordinator}
    (hc : coordInv es a p c) (member : Nat) :
    (finalFlush c member).applied = es := by
  have h := runSegment_inv hsorted hc
    ⟨member, (replayList c).length, (replayList c).length,
      (replayList c).length⟩
  obtain ⟨-, -, -, -, happ⟩ := h
  obtain ⟨hap, hpl, hev, hcur, -⟩ := hc
  have hrep : (replayList c).length = es.length - a := by
    unfold replayList
    rw [hev, hcur, replay_drop hsorted (by omega)]
    simp
  dsimp only at happ
  unfold finalFlush
  rw [happ]
  have hmax : max p (a + min (min (replayList c).length
      (replayList c).length) (es.length - a)) = es.length := by
    rw [hrep]
    omega
  rw [hmax, List.take_length]

/-- C1: over any run — arbitrary disconnects, reconnects and fail-overs
to other cluster members after any point — the stream applied above the
dedup layer is always a duplicate-free prefix of the
blockchain-established event stream (original order, no gaps, no
duplicates); the producer's re-delivery on a new active connection is
exactly the suffix of events past the acknowledged marker; and once a
connection stays up long enough, all N events have been applied, each
exactly once, in the blockchain order. -/
theorem coordinator_exactly_once (es : List Nat)
    (hes : es.Pairwise (· < ·)) (segs : List Segment) (member : Nat) :
    (runSegments (initCoordinator es) segs).applied <+: es
    ∧ (runSegments (initCoordinator es) segs).applied.Nodup
    ∧ (∃ a, a ≤ es.length
        ∧ (runSegments (initCoordinator es) segs).cursor
            = (es.take a).getLast?
        ∧ replayList (runSegments (initCoordinator es) segs)
            = es.drop a)
    ∧ (finalFlush (runSegments (initCoordinator es) segs) member).applied
        = es := by
  have hinit : coordInv es 0 0 (initCoordinator es) :=
    ⟨Nat.le_refl _, Nat.zero_le _, rfl, rfl, rfl⟩
  obtain ⟨a, p, -, -, hinv⟩ := runSegments_inv hes segs hinit
  have hfin := finalFlush_applied hes hinv member
  obtain ⟨hap, hpl, hev, hcur, happ⟩ := hinv
  refine ⟨?_, ?_, ⟨a, by omega, hcur, ?_⟩, hfin⟩
  · rw [happ]
    exact List.take_prefix _ _
  · rw [happ]
    have hnd : es.Nodup := List.Pairwise.imp Nat.ne_of_lt hes
    exact hnd.sublist (List.take_sublist _ _)
  · unfold replayList
    rw [hev, hcur]
    exact replay_drop hes (by omega)

/-- Witness for C1 on a concrete 5-event stream with a disconnect after
partial delivery and a fail-over to a different member. -/
theorem coordinator_exactly_once_witness :
    (runSegments (initCoordinator [1, 2, 3, 4, 5])
        [⟨0, 3, 2, 1⟩, ⟨1, 4, 4, 4⟩]).applied <+: [1, 2, 3, 4, 5]
    ∧ (runSegments (initCoordinator [1, 2, 3, 4, 5])
        [⟨0, 3, 2, 1⟩, ⟨1, 4, 4, 4⟩]).applied.Nodup
    ∧ (∃ a, a ≤ ([1, 2, 3, 4, 5] : List Nat).length
        ∧ (runSegments (initCoordinator [1, 2, 3, 4, 5])
            [⟨0, 3, 2, 1⟩, ⟨1, 4, 4, 4⟩]).cursor
            = (([1, 2, 3, 4, 5] : List Nat).take a).getLast?
        ∧ replayList (runSegments (initCoordinator [1, 2, 3, 4, 5])
            [⟨0, 3, 2, 1⟩, ⟨1, 4, 4, 4⟩])
            = ([1, 2, 3, 4, 5] : List Nat).drop a)
    ∧ (finalFlush (runSegments (initCoordinator [1, 2, 3, 4, 5])
        [⟨0, 3, 2, 1⟩, ⟨1, 4, 4, 4⟩]) 7).applied = [1, 2, 3, 4, 5] :=
  coordinator_exactly_once [1, 2, 3, 4, 5] (by decide)
    [⟨0, 3, 2, 1⟩, ⟨1, 4, 4, 4⟩] 7

end Firefly
